import Mathlib

/-!
Verification of the `revm` interpreter core (`src/crates/revm/src/interpreter.rs`).

The interpreter's own code (`Interpreter::analyse`, `Interpreter::run`,
`Interpreter::add_next_gas_block`, `Interpreter::program_counter`,
`Interpreter::current_opcode`) is embedded directly from the source.  The
collaborators it uses that are declared elsewhere in the crate (the `Gas`
meter, the `Contract`/`BytecodeLocked` analysis data, the `Return` enum, the
opcode table, the `Host` trait and the `eval` dispatcher) are modelled from
the specification; each such definition carries a doc comment starting with
`Modelled from the spec:`.

Machine bytes are `Nat`s (values < 256 in real bytecode); `usize` arithmetic
that can wrap or panic is modelled explicitly (`Option` results).
-/

set_option maxRecDepth 10000

namespace Revm

/-! ### Opcode byte values -/

/-- Modelled from the spec: the canonical EVM opcode byte for STOP. -/
def STOP : Nat := 0x00

/-- Modelled from the spec: the canonical EVM opcode byte for JUMPI. -/
def JUMPI : Nat := 0x57

/-- Modelled from the spec: the canonical EVM opcode byte for JUMPDEST. -/
def JUMPDEST : Nat := 0x5b

/-- Modelled from the spec: the canonical EVM opcode byte for PUSH1. -/
def PUSH1 : Nat := 0x60

/-- Modelled from the spec: the canonical EVM opcode byte for PUSH2. -/
def PUSH2 : Nat := 0x61

/-- Modelled from the spec: the canonical EVM opcode byte for PUSH3. -/
def PUSH3 : Nat := 0x62

/-- Modelled from the spec: the canonical EVM opcode byte for PUSH32. -/
def PUSH32 : Nat := 0x7f

/-- Modelled from the spec: the synthetic fused opcode byte `PUSH2_JUMPI`
(`crate::opcode::PUSH2_JUMPI` is not under `src/`).  The spec only requires a
byte distinct from every canonical opcode; we use the smallest unused opcode
slot, 0x0c.  Nothing below depends on the exact value beyond it differing
from `PUSH2` and `JUMPI`. -/
def PUSH2_JUMPI : Nat := 0x0c

/-- Modelled from the spec (§4.4, §6): a `PUSH*N*` opcode consumes the next
`N` bytes as immediate data; every other opcode consumes none. -/
def pushLen (op : Nat) : Nat :=
  if PUSH1 ≤ op ∧ op ≤ PUSH32 then op - PUSH1 + 1 else 0

/-! ### Jumpdest analysis (spec §4.4) -/

/-- Modelled from the spec (§4.4): the single analysis pass walks the byte
stream instruction by instruction, a `PUSH*N*` opcode skipping its `N`
immediate bytes, so immediate bytes are never visited.  `opWalk bc fuel i`
returns the genuine opcode positions from offset `i` on; the fuel only makes
the recursion structural and `bc.length` is always enough of it, because
every step advances by at least one byte. -/
def opWalk (bc : List Nat) : Nat → Nat → List Nat
  | 0, _ => []
  | fuel+1, i =>
    if bc.length ≤ i then []
    else i :: opWalk bc fuel (i + 1 + pushLen (bc.getD i 0))

/-- The genuine opcode positions of a bytecode: offsets that start an
instruction, as opposed to bytes inside a PUSH immediate. -/
def opcodePositions (bc : List Nat) : List Nat := opWalk bc bc.length 0

/-- Modelled from the spec (§4.4, glossary): the jumpdest bitmap marks an
offset valid exactly when it is a genuine opcode position whose byte is
`JUMPDEST`; bytes inside a PUSH immediate never receive a jumpdest bit. -/
def validJumpSpec (bc : List Nat) (t : Nat) : Bool :=
  decide (t ∈ opcodePositions bc) && decide (bc.getD t 0 = JUMPDEST)

/-! ### Gas meter (spec §3, §4.3) -/

/-- Modelled from the spec (§3): the gas meter keeps two counters,
`remaining` (`u64`) and `refunded` (`i64`). -/
structure Gas where
  remaining : Nat
  refunded : Int
deriving DecidableEq, Repr

/-- Modelled from the spec (§3): `record_cost(c)` returns false and leaves
`remaining` unchanged if `c > remaining`; otherwise decrements `remaining`
by `c` and returns true.  All-or-nothing: no partial deduction. -/
def Gas.recordCost (g : Gas) (cost : Nat) : Bool × Gas :=
  if g.remaining < cost then (false, g)
  else (true, { g with remaining := g.remaining - cost })

/-! ### Contract frame (spec §3) -/

/-- The contract frame's analysis data, as used by `interpreter.rs`:
`bytecode` is the locked (analysed, padded) byte buffer,
`validJumps` the jumpdest bitmap behind `Contract::is_valid_jump`,
`gasBlocks` the gas-block table behind `Contract::gas_block`, and
`firstGasBlock` the value of `Contract::first_gas_block`.  The code
computing the last three lives outside `src/`, so they are fields here;
`lockContract` below instantiates `validJumps` from the spec. -/
structure Contract where
  bytecode : List Nat
  validJumps : Nat → Bool
  gasBlocks : Nat → Nat
  firstGasBlock : Nat

/-- `Contract::is_valid_jump`. -/
def Contract.isValidJump (c : Contract) (t : Nat) : Bool := c.validJumps t

/-- `Contract::gas_block`. -/
def Contract.gasBlock (c : Contract) (pc : Nat) : Nat := c.gasBlocks pc

/-- Modelled from the spec (§3): a locked bytecode is the raw bytes padded
with implicit STOPs — enough padding that a truncated final instruction
(at most a PUSH32 missing all 32 immediate bytes) completes and the PC one
past it still reads a STOP, i.e. 33 bytes — together with the jumpdest
bitmap computed by the analysis pass. -/
def lockContract (raw : List Nat) (gb : Nat → Nat) (fgb : Nat) : Contract :=
  { bytecode := raw ++ List.replicate 33 STOP
    validJumps := fun t => validJumpSpec (raw ++ List.replicate 33 STOP) t
    gasBlocks := gb
    firstGasBlock := fgb }

/-! ### `Interpreter::analyse` (interpreter.rs lines 123–138)

The source:
```
for i in 0..self.contract.bytecode.bytecode().len() - 4 {
    let bytecode = self.contract.bytecode.bytecode();
    let opcode = bytecode[i];
    let target0 = bytecode[i + 1];
    let target1 = bytecode[i + 2];
    let target = ((target0 as usize) << 8) + target1 as usize;
    let next = bytecode[i + 3];
    if opcode == opcode::PUSH2 && next == opcode::JUMPI {
        if self.contract.is_valid_jump(target) {
            self.contract.bytecode.bytecode_mut()[i] = opcode::PUSH2_JUMPI;
        }
    }
}
```
`len() - 4` is `usize` subtraction: for `len < 4` it panics in debug builds
and wraps in release builds, where the first out-of-range index then panics;
either way the call fails, which we model as `none`.  For `len ≥ 4` every
index `i, i+1, i+2, i+3` with `i < len - 4` is in bounds, so the in-place
mutation is modelled by threading the list through a fold, reading with
`getD` (the default is never used at in-range indices). -/

/-- One iteration of the fusion scan at offset `i` (body of the `for` loop
above), with `valid` standing for `self.contract.is_valid_jump`. -/
def analyseStep (valid : Nat → Bool) (bc : List Nat) (i : Nat) : List Nat :=
  let opcode := bc.getD i 0
  let target0 := bc.getD (i + 1) 0
  let target1 := bc.getD (i + 2) 0
  let target := target0 * 256 + target1
  let next := bc.getD (i + 3) 0
  if opcode = PUSH2 ∧ next = JUMPI then
    if valid target then bc.set i PUSH2_JUMPI else bc
  else bc

/-- The fusion scan over a byte buffer: `none` models the panic on
`len < 4` (see above), otherwise the loop over `0..len-4`. -/
def analyseBytes (valid : Nat → Bool) (bc : List Nat) : Option (List Nat) :=
  if bc.length < 4 then none
  else some ((List.range (bc.length - 4)).foldl (analyseStep valid) bc)

/-- `Interpreter::analyse` acts on the contract: it rewrites the bytecode in
place and leaves the analysis data (jumpdest bitmap, gas-block table)
untouched. -/
def analyseContract (c : Contract) : Option Contract :=
  (analyseBytes c.validJumps c.bytecode).map (fun b => { c with bytecode := b })

/-- The local shape of a fusion candidate: `PUSH2` at `i` and `JUMPI` at
`i + 3` (the validity of the immediate is checked separately). -/
def fusionShape (bc : List Nat) (i : Nat) : Prop :=
  bc.getD i 0 = PUSH2 ∧ bc.getD (i + 3) 0 = JUMPI

instance (bc : List Nat) (i : Nat) : Decidable (fusionShape bc i) := by
  unfold fusionShape; infer_instance

/-- The full rewrite condition the loop body tests at offset `i`. -/
def fusionMatch (valid : Nat → Bool) (bc : List Nat) (i : Nat) : Prop :=
  fusionShape bc i ∧ valid (bc.getD (i + 1) 0 * 256 + bc.getD (i + 2) 0) = true

instance (valid : Nat → Bool) (bc : List Nat) (i : Nat) :
    Decidable (fusionMatch valid bc i) := by
  unfold fusionMatch; infer_instance

/-- Any two distinct fusion-shape candidates are at least 3 bytes apart, so
no candidate's immediate bytes overlap another candidate's opcode byte. -/
def Spaced (bc : List Nat) : Prop :=
  ∀ i, i < bc.length → ∀ j, j < bc.length →
    fusionShape bc i → fusionShape bc j → i < j → i + 3 ≤ j

instance (bc : List Nat) : Decidable (Spaced bc) := by
  unfold Spaced; infer_instance

/-! ### The `Return` enum and inspector events -/

/-- Modelled from the spec (§4.5 Termination): the `Return` kinds.
`Continue` is the non-terminal sentinel, all others are terminal. -/
inductive Ret where
  | Continue
  | Stop
  | Return
  | SelfDestruct
  | Revert
  | OutOfGas
  | MemoryLimitOOG
  | PrecompileOOG
  | StackUnderflow
  | StackOverflow
  | InvalidJump
  | InvalidOpcode
  | InvalidFEOpcode
  | CallTooDeep
  | OutOfFunds
  | NotActivated
  | StateChangeDuringStaticCall
  | FatalExternalError
deriving DecidableEq, Repr

/-- Observable events of one `run`: inspector hooks, opcode fetches and
dispatches, in program order.  Used to state "before/without" claims. -/
inductive Ev where
  | step
  | stepEnd
  | fetch (op : Nat)
  | dispatch (op : Nat)
deriving DecidableEq, Repr

/-! ### The interpreter state -/

/-- Execution-trace n-gram length; the source sets `const NGRAM: usize = 0`,
so the profiling block in the loop is statically dead. -/
def NGRAM : Nat := 0

/-- The `Interpreter` struct.  The raw `instruction_pointer: *const u8` is
modelled as an abstract address `ip` together with the bytecode buffer's
start address `base` (`contract.bytecode.as_ptr()`); dereferencing reads
the buffer at offset `ip - base`. -/
structure Interpreter where
  contract : Contract
  base : Nat
  ip : Nat
  memory : List Nat
  stack : List Nat
  gas : Gas
  returnDataBuffer : List Nat
  returnRange : Nat × Nat
  opcodeWindow : Nat
  opcodeCounts : List (Nat × Nat)

/-- `Interpreter::current_opcode`: `unsafe { *self.instruction_pointer }`,
a read of the bytecode buffer at the pointer's offset.  Takes `&self`   —
modelled as a pure function. -/
def Interpreter.currentOpcode (i : Interpreter) : Nat :=
  i.contract.bytecode.getD (i.ip - i.base) 0

/-- `Interpreter::program_counter`:
`instruction_pointer.offset_from(bytecode.as_ptr()) as usize`.  Takes
`&self` — modelled as a pure function.  (For `ip ≥ base` the `isize` value
is the plain difference; the theorems below assume the pointer is inside
the buffer, as the safety comment in the source does.) -/
def Interpreter.programCounter (i : Interpreter) : Nat := i.ip - i.base

/-- `Interpreter::add_next_gas_block` (lines 103–111).  `USE_GAS` is a crate
constant whose definition is not under `src/`; following the spec's
`use_gas` configuration option it is passed as the `useGas` argument. -/
def Interpreter.addNextGasBlock (useGas : Bool) (i : Interpreter) (pc : Nat) :
    Interpreter × Ret :=
  if useGas then
    let r := i.gas.recordCost (i.contract.gasBlock pc)
    if r.1 = false then ({ i with gas := r.2 }, Ret.OutOfGas)
    else ({ i with gas := r.2 }, Ret.Continue)
  else (i, Ret.Continue)

/-- The n-gram profiling block in the loop body, guarded by `NGRAM > 0`.
With `NGRAM = 0` it is dead code and leaves the interpreter unchanged. -/
def ngramUpdate (i : Interpreter) (op : Nat) : Interpreter :=
  if 0 < NGRAM then
    let w := (i.opcodeWindow * 256 + op % 256) % 2 ^ 64
    let key := w % 2 ^ (NGRAM * 8)
    let counts :=
      if (i.opcodeCounts.lookup key).isSome then
        i.opcodeCounts.map (fun p => if p.1 = key then (p.1, p.2 + 1) else p)
      else (key, 1) :: i.opcodeCounts
    { i with opcodeWindow := w, opcodeCounts := counts }
  else i

/-! ### The host and the dispatch loop (`Interpreter::run`, lines 141–188) -/

/-- Modelled from the spec (§6, §4.7): the slice of the `Host` trait that
`run` itself uses.  `S` is the host's own state (mutated through
`&mut self`); `inspect` is the associated constant `H::INSPECT` and
`isStaticCall` is `SPEC::IS_STATIC_CALL`.  `step` and `stepEnd` are the
inspector hooks (they receive `&mut` interpreter and may mutate it);
`eval` is the opcode dispatcher `eval::<H, SPEC>(opcode, self, host)`,
abstract here because the instruction handlers are not under `src/`. -/
structure HostModel (S : Type) where
  inspect : Bool
  isStaticCall : Bool
  step : S → Interpreter → Bool → S × Interpreter × Ret
  stepEnd : S → Interpreter → Bool → Ret → S × Interpreter × Ret
  eval : Nat → Interpreter → S → Interpreter × S × Ret

/-- Result of running with a fuel bound: `crash` models a Rust panic
(only `analyse` on a short buffer can cause one), `fuelOut` means the fuel
ran out with the loop still going, `done` is an actual return of `run`,
carrying the returned `Return` kind, the final interpreter and host states,
and the event trace. -/
inductive Outcome (S : Type) where
  | crash
  | fuelOut
  | done (r : Ret) (i : Interpreter) (s : S) (tr : List Ev)

/-- Prefix a trace of events onto an outcome's trace. -/
def Outcome.withEvents {S : Type} (evs : List Ev) : Outcome S → Outcome S
  | .done r i s tr => .done r i s (evs ++ tr)
  | o => o

/-- The middle of the loop body: fetch the opcode at the instruction
pointer, run the (dead) n-gram block, advance the pointer by one, and
dispatch.  Returns the new interpreter and host states, the fetched opcode
and the handler's `Return`. -/
def runEval {S : Type} (H : HostModel S) (i : Interpreter) (s : S) :
    Interpreter × S × Nat × Ret :=
  let op := i.currentOpcode
  let i1 := ngramUpdate i op
  let i2 := { i1 with ip := i1.ip + 1 }
  let e := H.eval op i2 s
  (e.1, e.2.1, op, e.2.2)

/-- The dispatch loop of `run` (`while ret == Return::Continue { … }`),
with a fuel bound making the recursion structural.  Each iteration: the
inspector `step` hook (when `H::INSPECT`), whose non-`Continue` result is
returned from the function at once; fetch/advance/dispatch; the inspector
`step_end` hook, whose non-`Continue` result is returned at once; then the
loop condition on the handler's `ret`. -/
def runLoop {S : Type} (H : HostModel S) : Nat → Interpreter → S → Outcome S
  | 0, _, _ => Outcome.fuelOut
  | fuel+1, i, s =>
    if H.inspect then
      let t := H.step s i H.isStaticCall
      if t.2.2 = Ret.Continue then
        let e := runEval H t.2.1 t.1
        let u := H.stepEnd e.2.1 e.1 H.isStaticCall e.2.2.2
        if u.2.2 = Ret.Continue then
          if e.2.2.2 = Ret.Continue then
            (runLoop H fuel u.2.1 u.1).withEvents
              [Ev.step, Ev.fetch e.2.2.1, Ev.dispatch e.2.2.1, Ev.stepEnd]
          else
            Outcome.done e.2.2.2 u.2.1 u.1
              [Ev.step, Ev.fetch e.2.2.1, Ev.dispatch e.2.2.1, Ev.stepEnd]
        else
          Outcome.done u.2.2 u.2.1 u.1
            [Ev.step, Ev.fetch e.2.2.1, Ev.dispatch e.2.2.1, Ev.stepEnd]
      else Outcome.done t.2.2 t.2.1 t.1 [Ev.step]
    else
      let e := runEval H i s
      if e.2.2.2 = Ret.Continue then
        (runLoop H fuel e.1 e.2.1).withEvents [Ev.fetch e.2.2.1, Ev.dispatch e.2.2.1]
      else Outcome.done e.2.2.2 e.1 e.2.1 [Ev.fetch e.2.2.1, Ev.dispatch e.2.2.1]

/-- The tail of `Interpreter::run` once `analyse` has succeeded: charge the
first basic block's gas (when `USE_GAS`) — `if USE_GAS &&
!self.gas.record_cost(self.contract.first_gas_block()) { return
Return::OutOfGas; }` — then enter the dispatch loop. -/
def runAfterAnalysis {S : Type} (useGas : Bool) (H : HostModel S) (fuel : Nat)
    (i0 : Interpreter) (s : S) : Outcome S :=
  if useGas then
    if (i0.gas.recordCost i0.contract.firstGasBlock).1 = false then
      Outcome.done Ret.OutOfGas
        { i0 with gas := (i0.gas.recordCost i0.contract.firstGasBlock).2 } s []
    else
      runLoop H fuel { i0 with gas := (i0.gas.recordCost i0.contract.firstGasBlock).2 } s
  else runLoop H fuel i0 s

/-- `Interpreter::run` (lines 141–188): run `analyse` on the contract, then
charge the first gas block and enter the dispatch loop. -/
def run {S : Type} (useGas : Bool) (H : HostModel S) (fuel : Nat)
    (i : Interpreter) (s : S) : Outcome S :=
  match analyseContract i.contract with
  | none => Outcome.crash
  | some c1 => runAfterAnalysis useGas H fuel { i with contract := c1 } s

/-! ### Termination measure and host discipline (for claim C1) -/

/-- The termination measure: remaining gas, then distance from the program
counter to the end of the bytecode. -/
def measureOf (i : Interpreter) : Nat :=
  i.gas.remaining * (i.contract.bytecode.length + 1) +
    (i.contract.bytecode.length - (i.ip - i.base))

/-- Modelled from the spec (§4.4–4.6): the discipline the dispatcher obeys.
Whenever a handler returns `Continue` it preserves the bytecode buffer and
its base, keeps the instruction pointer at or above the base, and either
consumed gas (under block-level charging only the block-entering handlers
do: a jump charges the destination basic block, which contains its
`JUMPDEST` and so costs at least one unit), or consumed none and then
moved the instruction pointer only forward — a plain handler leaves it at
the position the loop already advanced it to, while `PUSH1..PUSH32` and
the fused `PUSH2_JUMPI` fall-through additionally skip their immediate
bytes — with the new pointer still strictly inside the (STOP-padded)
bytecode.  (`i` here is the state the handler receives, whose pointer the
loop has already advanced past the opcode byte.) -/
def EvalProgress {S : Type} (H : HostModel S) : Prop :=
  ∀ op i s, (H.eval op i s).2.2 = Ret.Continue →
    (H.eval op i s).1.contract.bytecode.length = i.contract.bytecode.length ∧
    (H.eval op i s).1.base = i.base ∧
    (H.eval op i s).1.base ≤ (H.eval op i s).1.ip ∧
    ((H.eval op i s).1.gas.remaining < i.gas.remaining ∨
      ((H.eval op i s).1.gas.remaining = i.gas.remaining ∧
        i.ip ≤ (H.eval op i s).1.ip ∧
        (H.eval op i s).1.ip - i.base < i.contract.bytecode.length))

/-- Modelled from the spec (§4.7): inspector hooks observe the interpreter;
they do not rewrite its execution state (the inspector protocol's hooks on
this loop are observation points). -/
def HookPassive {S : Type} (H : HostModel S) : Prop :=
  (∀ s i b, (H.step s i b).2.1 = i) ∧
  (∀ s i b r, (H.stepEnd s i b r).2.1 = i)

/-! ### Concrete contracts, interpreters and hosts for the witnesses and
counterexamples -/

/-- A trivial gas-block table. -/
def gb0 : Nat → Nat := fun _ => 0

/-- C2's counterexample program: `JUMPDEST; PUSH3 0x610000; JUMPI; STOP`.
Offset 2 is the first immediate byte of the `PUSH3` and holds `PUSH2`'s
byte value; offset 5 holds `JUMPI`; the would-be immediate `0x0000` is a
valid jumpdest (offset 0). -/
def c2bytes : List Nat := [0x5b, 0x62, 0x61, 0x00, 0x00, 0x57, 0x00]

/-- The locked contract of `c2bytes`. -/
def c2c : Contract := lockContract c2bytes gb0 0

/-- C3's counterexample program (3073 bytes before padding):
`PUSH2 0x0057; JUMPI; JUMPI` overlapped — offsets 0 and 1 both hold
`PUSH2`, offsets 3 and 4 both hold `JUMPI` — followed by a `JUMPDEST` at
offset 87 (= 0x57) and one at offset 3072 (= PUSH2_JUMPI · 256).  The
first pass fuses offset 1 (its target 0x0057 is the jumpdest at 87),
writing `PUSH2_JUMPI` into the immediate of the candidate at offset 0 and
turning that candidate's target from the invalid 0x6100 into the valid
0x0c00, so a second pass rewrites offset 0 as well. -/
def c3raw : List Nat :=
  [0x61, 0x61, 0x00, 0x57, 0x57] ++
    (List.replicate 82 0x00 ++
      ([0x5b] ++ (List.replicate 2984 0x00 ++ [0x5b])))

/-- The locked contract of `c3raw`. -/
def c3c : Contract := lockContract c3raw gb0 0

/-- `c3c.bytecode`, written as one append chain. -/
def c3bc : List Nat :=
  [0x61, 0x61, 0x00, 0x57, 0x57] ++
    (List.replicate 82 0x00 ++
      ([0x5b] ++ (List.replicate 2984 0x00 ++
        ([0x5b] ++ List.replicate 33 0x00))))

/-- The byte of `c3bc` at each offset, as a closed function. -/
def c3byte (k : Nat) : Nat :=
  if k = 0 ∨ k = 1 then 0x61
  else if k = 3 ∨ k = 4 then 0x57
  else if k = 87 ∨ k = 3072 then 0x5b
  else 0

/-- A small spaced contract for the C3 witness:
`PUSH2 0x0004; JUMPI; JUMPDEST; STOP`. -/
def c3w : Contract := lockContract [0x61, 0x00, 0x04, 0x57, 0x5b, 0x00] gb0 0

/-- A concrete interpreter state over a given contract: fresh frame at
offset 0 of a buffer based at address 1000, with the given gas. -/
def interpOf (c : Contract) (g : Nat) : Interpreter :=
  { contract := c
    base := 1000
    ip := 1000
    memory := []
    stack := []
    gas := { remaining := g, refunded := 0 }
    returnDataBuffer := []
    returnRange := (0, 0)
    opcodeWindow := 0
    opcodeCounts := [] }

/-- A contract whose gas blocks are all expensive (for the C4 and C5
witnesses). -/
def cExpensive : Contract := lockContract [0x5b, 0x00] (fun _ => 1000000) 1000000

/-- A host with no inspector whose dispatcher always halts with `Stop`. -/
def hostStop : HostModel Unit :=
  { inspect := false
    isStaticCall := false
    step := fun s i _ => (s, i, Ret.Continue)
    stepEnd := fun s i _ _ => (s, i, Ret.Continue)
    eval := fun _ i s => (i, s, Ret.Stop) }

/-- An inspecting host whose `step` hook short-circuits with `Revert`. -/
def hostStepRevert : HostModel Unit :=
  { inspect := true
    isStaticCall := false
    step := fun s i _ => (s, i, Ret.Revert)
    stepEnd := fun s i _ _ => (s, i, Ret.Continue)
    eval := fun _ i s => (i, s, Ret.Stop) }

/-- An inspecting host whose `step_end` hook overrides the handler's
return with `Revert`. -/
def hostEndRevert : HostModel Unit :=
  { inspect := true
    isStaticCall := false
    step := fun s i _ => (s, i, Ret.Continue)
    stepEnd := fun s i _ _ => (s, i, Ret.Revert)
    eval := fun _ i s => (i, s, Ret.Stop) }

/-- An inspecting host whose hooks are passive and whose dispatcher stops. -/
def hostInspectStop : HostModel Unit :=
  { inspect := true
    isStaticCall := false
    step := fun s i _ => (s, i, Ret.Continue)
    stepEnd := fun s i _ _ => (s, i, Ret.Continue)
    eval := fun _ i s => (i, s, Ret.Stop) }

/-- A no-inspector host with a genuinely continuing dispatcher: its `PUSH1`
handler skips the one immediate byte and returns `Continue` without
consuming gas (the block-level scheme charges static costs at block heads,
not per instruction), provided the skip stays inside the bytecode; every
other opcode halts with `Stop`.  It exercises the gas-neutral,
pointer-advancing case of `EvalProgress` non-vacuously. -/
def hostPush : HostModel Unit :=
  { inspect := false
    isStaticCall := false
    step := fun s i _ => (s, i, Ret.Continue)
    stepEnd := fun s i _ _ => (s, i, Ret.Continue)
    eval := fun op i s =>
      if op = PUSH1 ∧ i.base ≤ i.ip ∧
          i.ip + 1 - i.base < i.contract.bytecode.length then
        ({ i with ip := i.ip + 1 }, s, Ret.Continue)
      else (i, s, Ret.Stop) }

/-- The program `PUSH1 0x07; STOP` for the C1 witness: its run under
`hostPush` takes a `Continue` step through the `PUSH1` before halting. -/
def cPush : Contract := lockContract [0x60, 0x07, 0x00] gb0 0

/-! ### Helper lemmas -/

theorem getD_set_self (l : List Nat) (i x : Nat) (h : i < l.length) :
    (l.set i x).getD i 0 = x := by
  simp [List.getD_eq_getElem?_getD, List.getElem?_set_self h]

theorem getD_set_ne (l : List Nat) (x : Nat) {i j : Nat} (h : i ≠ j) :
    (l.set i x).getD j 0 = l.getD j 0 := by
  simp [List.getD_eq_getElem?_getD, List.getElem?_set_ne h]

/-- The nested conditionals of the loop body collapse to one rewrite
condition. -/
theorem analyseStep_eq (valid : Nat → Bool) (bc : List Nat) (i : Nat) :
    analyseStep valid bc i =
      if fusionMatch valid bc i then bc.set i PUSH2_JUMPI else bc := by
  unfold analyseStep fusionMatch
  by_cases h1 : bc.getD i 0 = PUSH2 ∧ bc.getD (i + 3) 0 = JUMPI
  · by_cases h2 : valid (bc.getD (i + 1) 0 * 256 + bc.getD (i + 2) 0) = true
    · rw [if_pos h1, if_pos h2, if_pos ⟨h1, h2⟩]
    · rw [if_pos h1, if_neg h2, if_neg (by rintro ⟨_, hv⟩; exact h2 hv)]
  · rw [if_neg h1, if_neg (by rintro ⟨hs, _⟩; exact h1 hs)]

/-- The rewrite condition only reads the buffer at offsets `≥ i`. -/
theorem fusionMatch_congr (valid : Nat → Bool) {s b : List Nat} {i : Nat}
    (hagree : ∀ k, i ≤ k → s.getD k 0 = b.getD k 0) :
    fusionMatch valid s i ↔ fusionMatch valid b i := by
  unfold fusionMatch fusionShape
  rw [hagree i le_rfl, hagree (i + 1) (by omega), hagree (i + 2) (by omega),
    hagree (i + 3) (by omega)]

/-- The fusion scan preserves the buffer's length. -/
theorem analyseLoop_length (valid : Nat → Bool) :
    ∀ (m i : Nat) (s : List Nat),
      ((List.range' i m).foldl (analyseStep valid) s).length = s.length := by
  intro m
  induction m with
  | zero => intro i s; rfl
  | succ n ih =>
    intro i s
    rw [List.range'_succ, List.foldl_cons, ih, analyseStep_eq]
    split
    · exact List.length_set ..
    · rfl

/-- Pointwise description of the fusion scan: because iteration `i` writes
only offset `i` and reads only offsets `≥ i`, the sequential in-place loop
equals the parallel rewrite of every matching offset of the *original*
buffer. -/
theorem analyseLoop_getD (valid : Nat → Bool) (b : List Nat) :
    ∀ (m i : Nat) (s : List Nat), s.length = b.length → i + m ≤ b.length →
      (∀ k, i ≤ k → s.getD k 0 = b.getD k 0) →
      ∀ k, ((List.range' i m).foldl (analyseStep valid) s).getD k 0 =
        if i ≤ k ∧ k < i + m ∧ fusionMatch valid b k then PUSH2_JUMPI
        else s.getD k 0 := by
  intro m
  induction m with
  | zero =>
    intro i s hl hb ha k
    rw [if_neg (by rintro ⟨h1, h2, _⟩; omega)]
    rfl
  | succ n ih =>
    intro i s hlen hbound hagree k
    rw [List.range'_succ, List.foldl_cons, analyseStep_eq]
    simp only [fusionMatch_congr valid hagree]
    by_cases hc : fusionMatch valid b i
    · rw [if_pos hc]
      have hlen1 : (s.set i PUSH2_JUMPI).length = b.length := by
        rw [List.length_set]; exact hlen
      have hagree1 : ∀ j, i + 1 ≤ j → (s.set i PUSH2_JUMPI).getD j 0 = b.getD j 0 := by
        intro j hj
        rw [getD_set_ne _ _ (by omega : i ≠ j)]
        exact hagree j (by omega)
      rw [ih (i + 1) _ hlen1 (by omega) hagree1 k]
      by_cases hik : k = i
      · subst hik
        rw [if_neg (by rintro ⟨h1, _, _⟩; omega),
          getD_set_self _ _ _ (by omega : k < s.length),
          if_pos ⟨le_rfl, by omega, hc⟩]
      · rw [getD_set_ne _ _ (fun he => hik he.symm)]
        by_cases hm : fusionMatch valid b k
        · by_cases hrange : i + 1 ≤ k ∧ k < i + 1 + n
          · rw [if_pos ⟨hrange.1, hrange.2, hm⟩, if_pos ⟨by omega, by omega, hm⟩]
          · rw [if_neg (by rintro ⟨h1, h2, _⟩; exact hrange ⟨h1, h2⟩),
              if_neg (by rintro ⟨h1, h2, _⟩; exact hrange ⟨by omega, by omega⟩)]
        · rw [if_neg (by rintro ⟨_, _, h3⟩; exact hm h3),
            if_neg (by rintro ⟨_, _, h3⟩; exact hm h3)]
    · rw [if_neg hc]
      rw [ih (i + 1) s hlen (by omega) (fun j hj => hagree j (by omega)) k]
      by_cases hik : k = i
      · subst hik
        rw [if_neg (by rintro ⟨h1, _, _⟩; omega),
          if_neg (by rintro ⟨_, _, h3⟩; exact hc h3)]
      · by_cases hm : fusionMatch valid b k
        · by_cases hrange : i + 1 ≤ k ∧ k < i + 1 + n
          · rw [if_pos ⟨hrange.1, hrange.2, hm⟩, if_pos ⟨by omega, by omega, hm⟩]
          · rw [if_neg (by rintro ⟨h1, h2, _⟩; exact hrange ⟨h1, h2⟩),
              if_neg (by rintro ⟨h1, h2, _⟩; exact hrange ⟨by omega, by omega⟩)]
        · rw [if_neg (by rintro ⟨_, _, h3⟩; exact hm h3),
            if_neg (by rintro ⟨_, _, h3⟩; exact hm h3)]

/-- Characterization of `analyseBytes` on buffers long enough not to
panic: it succeeds, preserves the length, and rewrites exactly the
locally matching offsets of the original buffer. -/
theorem analyseBytes_char (valid : Nat → Bool) (bc : List Nat)
    (h4 : 4 ≤ bc.length) :
    ∃ r, analyseBytes valid bc = some r ∧ r.length = bc.length ∧
      ∀ k, r.getD k 0 =
        if k < bc.length - 4 ∧ fusionMatch valid bc k then PUSH2_JUMPI
        else bc.getD k 0 := by
  refine ⟨(List.range (bc.length - 4)).foldl (analyseStep valid) bc, ?_, ?_, ?_⟩
  · unfold analyseBytes
    rw [if_neg (by omega)]
  · rw [List.range_eq_range']
    exact analyseLoop_length ..
  · intro k
    rw [List.range_eq_range',
      analyseLoop_getD valid bc (bc.length - 4) 0 bc rfl (by omega)
        (fun _ _ => rfl) k]
    by_cases hm : k < bc.length - 4 ∧ fusionMatch valid bc k
    · rw [if_pos ⟨by omega, by omega, hm.2⟩, if_pos hm]
    · rw [if_neg (by rintro ⟨_, h2, h3⟩; exact hm ⟨by omega, h3⟩), if_neg hm]

/-- Contract-level characterization: `analyse` succeeds on a contract with
at least 4 bytecode bytes, leaves the jumpdest bitmap and gas tables
untouched, and rewrites exactly the matching offsets. -/
theorem analyseContract_char (c : Contract) (h4 : 4 ≤ c.bytecode.length) :
    ∃ c1, analyseContract c = some c1 ∧
      c1.validJumps = c.validJumps ∧ c1.gasBlocks = c.gasBlocks ∧
      c1.firstGasBlock = c.firstGasBlock ∧
      c1.bytecode.length = c.bytecode.length ∧
      ∀ k, c1.bytecode.getD k 0 =
        if k < c.bytecode.length - 4 ∧ fusionMatch c.validJumps c.bytecode k
        then PUSH2_JUMPI else c.bytecode.getD k 0 := by
  obtain ⟨r, hr, hlen, hgetD⟩ := analyseBytes_char c.validJumps c.bytecode h4
  exact ⟨{ c with bytecode := r }, by rw [analyseContract, hr]; rfl,
    rfl, rfl, rfl, hlen, hgetD⟩

/-! ### Helper lemmas about the jumpdest walk -/

theorem getD_append_left (l1 l2 : List Nat) {k : Nat} (h : k < l1.length) :
    (l1 ++ l2).getD k 0 = l1.getD k 0 := by
  rw [List.getD_eq_getElem?_getD, List.getD_eq_getElem?_getD,
    List.getElem?_append, if_pos h]

theorem getD_append_right (l1 l2 : List Nat) {k : Nat} (h : l1.length ≤ k) :
    (l1 ++ l2).getD k 0 = l2.getD (k - l1.length) 0 := by
  rw [List.getD_eq_getElem?_getD, List.getD_eq_getElem?_getD,
    List.getElem?_append_right h]

theorem getD_replicate_zero (n k : Nat) :
    (List.replicate n (0 : Nat)).getD k 0 = 0 := by
  rw [List.getD_eq_getElem?_getD, List.getElem?_replicate]
  split <;> rfl

/-- One step of the opcode walk. -/
theorem opWalk_succ (bc : List Nat) (f i : Nat) :
    opWalk bc (f + 1) i =
      if bc.length ≤ i then []
      else i :: opWalk bc f (i + 1 + pushLen (bc.getD i 0)) := rfl

/-- Every position the walk visits lies inside the bytecode. -/
theorem opWalk_mem_lt (bc : List Nat) :
    ∀ f i t, t ∈ opWalk bc f i → t < bc.length := by
  intro f
  induction f with
  | zero => intro i t h; simp [opWalk] at h
  | succ n ih =>
    intro i t h
    rw [opWalk_succ] at h
    by_cases hi : bc.length ≤ i
    · rw [if_pos hi] at h; simp at h
    · rw [if_neg hi] at h
      rcases List.mem_cons.mp h with h1 | h2
      · omega
      · exact ih _ _ h2

/-- The walk steps byte by byte through a region of STOP bytes, visiting
every one of them. -/
theorem opWalk_zero_region (bc : List Nat) :
    ∀ (n f i : Nat), (∀ m, m < n → bc.getD (i + m) 0 = 0) →
      i + n ≤ bc.length →
      opWalk bc (n + f) i = List.range' i n ++ opWalk bc f (i + n) := by
  intro n
  induction n with
  | zero =>
    intro f i hz hb
    simp
  | succ n ih =>
    intro f i hz hb
    have hi : ¬ bc.length ≤ i := by omega
    have h0 : bc.getD i 0 = 0 := by
      have := hz 0 (by omega)
      simpa using this
    rw [show n + 1 + f = (n + f) + 1 by omega, opWalk_succ, if_neg hi, h0,
      show pushLen 0 = 0 from rfl, show i + 1 + 0 = i + 1 by omega,
      ih f (i + 1) (fun m hm => by
        have := hz (m + 1) (by omega)
        rwa [show i + (m + 1) = i + 1 + m by omega] at this) (by omega),
      List.range'_succ, show i + 1 + n = i + (n + 1) by omega]
    rfl

/-! ### The bytes and jumpdests of the C3 counterexample contract -/

theorem c3bc_length : c3bc.length = 3106 := by
  unfold c3bc
  simp only [List.length_append, List.length_replicate, List.length_cons,
    List.length_nil]

theorem c3bc_getD (k : Nat) : c3bc.getD k 0 = c3byte k := by
  by_cases h5 : k < 5
  · interval_cases k <;> rfl
  · unfold c3bc
    have l5 : ([0x61, 0x61, 0x00, 0x57, 0x57] : List Nat).length ≤ k := by
      simp only [List.length_cons, List.length_nil]
      omega
    rw [getD_append_right _ _ l5]
    simp only [List.length_cons, List.length_nil]
    by_cases h87 : k < 87
    · have hl : k - (0 + 1 + 1 + 1 + 1 + 1) < (List.replicate 82 (0x00 : Nat)).length := by
        simp only [List.length_replicate]
        omega
      rw [getD_append_left _ _ hl, getD_replicate_zero]
      unfold c3byte
      rw [if_neg (by omega), if_neg (by omega), if_neg (by omega)]
    · have l82 : (List.replicate 82 (0x00 : Nat)).length ≤ k - (0 + 1 + 1 + 1 + 1 + 1) := by
        simp only [List.length_replicate]
        omega
      rw [getD_append_right _ _ l82]
      simp only [List.length_replicate]
      by_cases h88 : k < 88
      · have hk : k = 87 := by omega
        subst hk
        rfl
      · have l1b : ([0x5b] : List Nat).length ≤ k - (0 + 1 + 1 + 1 + 1 + 1) - 82 := by
          simp only [List.length_cons, List.length_nil]
          omega
        rw [getD_append_right _ _ l1b]
        simp only [List.length_cons, List.length_nil]
        by_cases h3072 : k < 3072
        · have hl : k - (0 + 1 + 1 + 1 + 1 + 1) - 82 - (0 + 1) <
              (List.replicate 2984 (0x00 : Nat)).length := by
            simp only [List.length_replicate]
            omega
          rw [getD_append_left _ _ hl, getD_replicate_zero]
          unfold c3byte
          rw [if_neg (by omega), if_neg (by omega), if_neg (by omega)]
        · have l2984 : (List.replicate 2984 (0x00 : Nat)).length ≤
              k - (0 + 1 + 1 + 1 + 1 + 1) - 82 - (0 + 1) := by
            simp only [List.length_replicate]
            omega
          rw [getD_append_right _ _ l2984]
          simp only [List.length_replicate]
          by_cases h3073 : k < 3073
          · have hk : k = 3072 := by omega
            subst hk
            rfl
          · have l1c : ([0x5b] : List Nat).length ≤
                k - (0 + 1 + 1 + 1 + 1 + 1) - 82 - (0 + 1) - 2984 := by
              simp only [List.length_cons, List.length_nil]
              omega
            rw [getD_append_right _ _ l1c, getD_replicate_zero]
            unfold c3byte
            rw [if_neg (by omega), if_neg (by omega), if_neg (by omega)]

/-- The genuine opcode positions of the C3 contract: the `PUSH2` at 0 skips
its two immediate bytes, then every subsequent byte is its own instruction,
including the two `JUMPDEST`s at 87 and 3072. -/
theorem c3_walk : opcodePositions c3bc =
    0 :: 3 :: 4 :: (List.range' 5 82 ++
      (87 :: (List.range' 88 2984 ++
        (3072 :: (List.range' 3073 33 ++ opWalk c3bc 2 3106))))) := by
  unfold opcodePositions
  rw [c3bc_length]
  rw [show (3106 : Nat) = 3105 + 1 from rfl, opWalk_succ,
    if_neg (by rw [c3bc_length]; omega), c3bc_getD 0,
    show (0 : Nat) + 1 + pushLen (c3byte 0) = 3 from rfl]
  rw [show (3105 : Nat) = 3104 + 1 from rfl, opWalk_succ,
    if_neg (by rw [c3bc_length]; omega), c3bc_getD 3,
    show (3 : Nat) + 1 + pushLen (c3byte 3) = 4 from rfl]
  rw [show (3104 : Nat) = 3103 + 1 from rfl, opWalk_succ,
    if_neg (by rw [c3bc_length]; omega), c3bc_getD 4,
    show (4 : Nat) + 1 + pushLen (c3byte 4) = 5 from rfl]
  rw [show (3103 : Nat) = 82 + 3021 from rfl,
    opWalk_zero_region c3bc 82 3021 5
      (fun m hm => by
        rw [c3bc_getD]
        unfold c3byte
        split_ifs <;> omega)
      (by rw [c3bc_length]; omega),
    show (5 : Nat) + 82 = 87 from rfl]
  rw [show (3021 : Nat) = 3020 + 1 from rfl, opWalk_succ,
    if_neg (by rw [c3bc_length]; omega), c3bc_getD 87,
    show (87 : Nat) + 1 + pushLen (c3byte 87) = 88 from rfl]
  rw [show (3020 : Nat) = 2984 + 36 from rfl,
    opWalk_zero_region c3bc 2984 36 88
      (fun m hm => by
        rw [c3bc_getD]
        unfold c3byte
        split_ifs <;> omega)
      (by rw [c3bc_length]; omega),
    show (88 : Nat) + 2984 = 3072 from rfl]
  rw [show (36 : Nat) = 35 + 1 from rfl, opWalk_succ,
    if_neg (by rw [c3bc_length]; omega), c3bc_getD 3072,
    show (3072 : Nat) + 1 + pushLen (c3byte 3072) = 3073 from rfl]
  rw [show (35 : Nat) = 33 + 2 from rfl,
    opWalk_zero_region c3bc 33 2 3073
      (fun m hm => by
        rw [c3bc_getD]
        unfold c3byte
        split_ifs <;> omega)
      (by rw [c3bc_length]),
    show (3073 : Nat) + 33 = 3106 from rfl]

/-- Offset 87 of the C3 contract is a valid jumpdest. -/
theorem c3_valid_87 : validJumpSpec c3bc 87 = true := by
  unfold validJumpSpec
  have h87 : (87 : Nat) ∈ opcodePositions c3bc := by
    rw [c3_walk]
    simp
  rw [decide_eq_true h87, c3bc_getD]
  rfl

/-- Offset 3072 of the C3 contract is a valid jumpdest. -/
theorem c3_valid_3072 : validJumpSpec c3bc 3072 = true := by
  unfold validJumpSpec
  have h3072 : (3072 : Nat) ∈ opcodePositions c3bc := by
    rw [c3_walk]
    simp
  rw [decide_eq_true h3072, c3bc_getD]
  rfl

/-- Offset 24832 (= 0x6100) is past the end of the C3 contract, hence not a
valid jumpdest. -/
theorem c3_valid_24832 : validJumpSpec c3bc 24832 = false := by
  unfold validJumpSpec
  have hmem : ¬ ((24832 : Nat) ∈ opcodePositions c3bc) := by
    intro h
    have h2 : (24832 : Nat) ∈ opWalk c3bc c3bc.length 0 := h
    have := opWalk_mem_lt c3bc c3bc.length 0 24832 h2
    rw [c3bc_length] at this
    omega
  rw [decide_eq_false hmem]
  rfl

theorem lockContract_bytecode (raw : List Nat) (gb : Nat → Nat) (fgb : Nat) :
    (lockContract raw gb fgb).bytecode = raw ++ List.replicate 33 STOP := rfl

theorem lockContract_validJumps (raw : List Nat) (gb : Nat → Nat) (fgb : Nat) :
    (lockContract raw gb fgb).validJumps =
      fun t => validJumpSpec (raw ++ List.replicate 33 STOP) t := rfl

theorem lockContract_gasBlocks (raw : List Nat) (gb : Nat → Nat) (fgb : Nat) :
    (lockContract raw gb fgb).gasBlocks = gb := rfl

theorem lockContract_firstGasBlock (raw : List Nat) (gb : Nat → Nat) (fgb : Nat) :
    (lockContract raw gb fgb).firstGasBlock = fgb := rfl

theorem c3raw_padded : c3raw ++ List.replicate 33 STOP = c3bc := by
  unfold c3raw c3bc STOP
  simp only [List.append_assoc]

theorem c3c_bytecode : c3c.bytecode = c3bc := by
  unfold c3c
  rw [lockContract_bytecode, c3raw_padded]

theorem c3c_valid : c3c.validJumps = fun t => validJumpSpec c3bc t := by
  unfold c3c
  rw [lockContract_validJumps]
  simp only [c3raw_padded]

/-- Two lists of naturals agreeing in length and at every `getD` index are
equal. -/
theorem list_eq_of_getD (l1 : List Nat) :
    ∀ l2 : List Nat, l1.length = l2.length →
      (∀ k, l1.getD k 0 = l2.getD k 0) → l1 = l2 := by
  induction l1 with
  | nil =>
    intro l2 hlen h
    cases l2 with
    | nil => rfl
    | cons b t => simp at hlen
  | cons a t ih =>
    intro l2 hlen h
    cases l2 with
    | nil => simp at hlen
    | cons b t2 =>
      have h0 : a = b := h 0
      subst h0
      have ht : t = t2 := ih t2 (by simpa using hlen) (fun k => h (k + 1))
      rw [ht]

/-- Contracts with equal fields are equal. -/
theorem Contract.eq_of_fields {a b : Contract} (h1 : a.bytecode = b.bytecode)
    (h2 : a.validJumps = b.validJumps) (h3 : a.gasBlocks = b.gasBlocks)
    (h4 : a.firstGasBlock = b.firstGasBlock) : a = b := by
  cases a
  cases b
  dsimp at h1 h2 h3 h4
  subst h1
  subst h2
  subst h3
  subst h4
  rfl

/-- When no offset of a contract's bytecode matches the fusion pattern,
`analyse` returns the contract unchanged. -/
theorem analyseContract_fix (c1 : Contract) (h4 : 4 ≤ c1.bytecode.length)
    (hnomatch : ∀ k, k < c1.bytecode.length - 4 →
      ¬ fusionMatch c1.validJumps c1.bytecode k) :
    analyseContract c1 = some c1 := by
  obtain ⟨c2, hc2, hvj2, hgb2, hfgb2, hlen2, hget2⟩ := analyseContract_char c1 h4
  have hbyte : ∀ k, c2.bytecode.getD k 0 = c1.bytecode.getD k 0 := by
    intro k
    rw [hget2 k, if_neg (by rintro ⟨hk, hm⟩; exact hnomatch k hk hm)]
  have hlist : c2.bytecode = c1.bytecode := list_eq_of_getD _ _ hlen2 hbyte
  rw [hc2, Contract.eq_of_fields hlist hvj2 hgb2 hfgb2]

/-! ### Claim C2: what the fusion scan rewrites -/

/-- C2 counterexample: `analyse` rewrites offset 2 of `c2c` to
`PUSH2_JUMPI` although offset 2 lies inside the immediate data of the
`PUSH3` instruction at offset 1 and is not a genuine opcode position — the
scan never checks instruction alignment, so the claim that only genuine
opcode positions are rewritten (and hence that fusion is semantically
transparent) is false on the code. -/
theorem C2_counterexample :
    (analyseContract c2c).map (fun c => c.bytecode.getD 2 0) = some PUSH2_JUMPI ∧
    c2c.bytecode.getD 2 0 = PUSH2 ∧
    c2c.bytecode.getD 1 0 = PUSH3 ∧
    ¬ (2 ∈ opcodePositions c2c.bytecode) ∧
    1 ∈ opcodePositions c2c.bytecode := by
  decide

/-- C2 (amended): on every contract whose (padded) bytecode has at least 4
bytes, `analyse` succeeds and rewrites a byte at offset `i` (to
`PUSH2_JUMPI`) exactly when `i < len - 4`, the byte at `i` is `PUSH2`, the
byte at `i + 3` is `JUMPI` and the two-byte big-endian immediate is a valid
jumpdest — with no requirement that `i` be a genuine opcode position, so a
byte inside another instruction's PUSH immediate can be rewritten; all
other bytes are left unchanged, and the jumpdest bitmap and gas tables are
untouched. -/
theorem C2_theorem (c : Contract) (h4 : 4 ≤ c.bytecode.length) :
    ∃ c1, analyseContract c = some c1 ∧
      c1.validJumps = c.validJumps ∧ c1.gasBlocks = c.gasBlocks ∧
      c1.firstGasBlock = c.firstGasBlock ∧
      c1.bytecode.length = c.bytecode.length ∧
      ∀ k, c1.bytecode.getD k 0 =
        if k < c.bytecode.length - 4 ∧ fusionMatch c.validJumps c.bytecode k
        then PUSH2_JUMPI else c.bytecode.getD k 0 :=
  analyseContract_char c h4

/-- Witness for `C2_theorem` at the concrete contract `c2c`. -/
theorem C2_witness :
    ∃ c1, analyseContract c2c = some c1 ∧
      c1.validJumps = c2c.validJumps ∧ c1.gasBlocks = c2c.gasBlocks ∧
      c1.firstGasBlock = c2c.firstGasBlock ∧
      c1.bytecode.length = c2c.bytecode.length ∧
      ∀ k, c1.bytecode.getD k 0 =
        if k < c2c.bytecode.length - 4 ∧ fusionMatch c2c.validJumps c2c.bytecode k
        then PUSH2_JUMPI else c2c.bytecode.getD k 0 :=
  C2_theorem c2c (by decide)

/-! ### Claim C3: idempotence of `analyse` -/

/-- C3 counterexample: on the contract `c3c` a second run of `analyse`
rewrites strictly more than the first.  The first pass fuses offset 1,
writing the fused byte into the immediate of the overlapping candidate at
offset 0; that changes the candidate's target from the invalid 0x6100 to
the valid `PUSH2_JUMPI * 256 = 0x0c00`, so the second pass rewrites offset
0 as well, and `analyse (analyse c3c) ≠ analyse c3c`. -/
theorem C3_counterexample :
    (analyseContract c3c).bind analyseContract ≠ analyseContract c3c := by
  have hclen : c3c.bytecode.length = 3106 := by rw [c3c_bytecode, c3bc_length]
  have h4 : 4 ≤ c3c.bytecode.length := by omega
  obtain ⟨c1, hc1, hvj, hgb, hfgb, hlen, hget⟩ := analyseContract_char c3c h4
  have hm0 : ¬ fusionMatch c3c.validJumps c3c.bytecode 0 := by
    rw [c3c_bytecode, c3c_valid]
    rintro ⟨hs, hv⟩
    rw [c3bc_getD 1, c3bc_getD 2] at hv
    have hv2 : validJumpSpec c3bc 24832 = true := hv
    rw [c3_valid_24832] at hv2
    exact Bool.noConfusion hv2
  have hm1 : fusionMatch c3c.validJumps c3c.bytecode 1 := by
    rw [c3c_bytecode, c3c_valid]
    refine ⟨⟨?_, ?_⟩, ?_⟩
    · rw [c3bc_getD 1]; rfl
    · rw [c3bc_getD 4]; rfl
    · rw [c3bc_getD 2, c3bc_getD 3]
      show validJumpSpec c3bc 87 = true
      exact c3_valid_87
  have hb0 : c1.bytecode.getD 0 0 = 0x61 := by
    rw [hget 0, if_neg (by rintro ⟨_, hm⟩; exact hm0 hm), c3c_bytecode, c3bc_getD 0]
    rfl
  have hb1 : c1.bytecode.getD 1 0 = PUSH2_JUMPI := by
    rw [hget 1, if_pos ⟨by omega, hm1⟩]
  have hb2 : c1.bytecode.getD 2 0 = 0 := by
    rw [hget 2, if_neg (by
        rintro ⟨_, ⟨hs, _⟩, _⟩
        rw [c3c_bytecode, c3bc_getD 2] at hs
        exact absurd hs (by decide)),
      c3c_bytecode, c3bc_getD 2]
    rfl
  have hb3 : c1.bytecode.getD 3 0 = 0x57 := by
    rw [hget 3, if_neg (by
        rintro ⟨_, ⟨hs, _⟩, _⟩
        rw [c3c_bytecode, c3bc_getD 3] at hs
        exact absurd hs (by decide)),
      c3c_bytecode, c3bc_getD 3]
    rfl
  have h4b : 4 ≤ c1.bytecode.length := by omega
  obtain ⟨c2, hc2, hvj2, hgb2, hfgb2, hlen2, hget2⟩ := analyseContract_char c1 h4b
  have hm0b : fusionMatch c1.validJumps c1.bytecode 0 := by
    rw [hvj, c3c_valid]
    refine ⟨⟨?_, ?_⟩, ?_⟩
    · exact hb0
    · exact hb3
    · rw [hb1, hb2]
      show validJumpSpec c3bc 3072 = true
      exact c3_valid_3072
  have hq : c2.bytecode.getD 0 0 = PUSH2_JUMPI := by
    rw [hget2 0, if_pos ⟨by omega, hm0b⟩]
  intro heq
  rw [hc1, Option.some_bind, hc2] at heq
  injection heq with heq2
  rw [heq2, hb0] at hq
  exact absurd hq (by decide)

/-- C3 (amended): `analyse` is a deterministic function of the contract,
and it is idempotent on every contract whose fusion-shape candidates
(`PUSH2` at `i`, `JUMPI` at `i + 3`) are pairwise at least 3 bytes apart,
so that no fused byte can land inside another candidate's immediate.  (The
counterexample shows idempotence fails without that spacing.) -/
theorem C3_theorem (c : Contract) (hs : Spaced c.bytecode) :
    (analyseContract c).bind analyseContract = analyseContract c := by
  by_cases h4 : 4 ≤ c.bytecode.length
  · obtain ⟨c1, hc1, hvj, hgb, hfgb, hlen, hget⟩ := analyseContract_char c h4
    have hnomatch : ∀ k, k < c1.bytecode.length - 4 →
        ¬ fusionMatch c1.validJumps c1.bytecode k := by
      intro k hk
      rintro ⟨⟨hp, hj⟩, hv⟩
      rw [hvj] at hv
      have hkr : k < c.bytecode.length - 4 := by omega
      have hck := hget k
      by_cases hmk : k < c.bytecode.length - 4 ∧ fusionMatch c.validJumps c.bytecode k
      · rw [if_pos hmk] at hck
        rw [hck] at hp
        exact absurd hp (by decide)
      · rw [if_neg hmk] at hck
        have hbp : c.bytecode.getD k 0 = PUSH2 := by rw [← hck]; exact hp
        have hck3 := hget (k + 3)
        by_cases hmk3 : k + 3 < c.bytecode.length - 4 ∧
            fusionMatch c.validJumps c.bytecode (k + 3)
        · rw [if_pos hmk3] at hck3
          rw [hck3] at hj
          exact absurd hj (by decide)
        · rw [if_neg hmk3] at hck3
          have hbj : c.bytecode.getD (k + 3) 0 = JUMPI := by rw [← hck3]; exact hj
          have hshape : fusionShape c.bytecode k := ⟨hbp, hbj⟩
          have hun : ∀ d, d = 1 ∨ d = 2 →
              c1.bytecode.getD (k + d) 0 = c.bytecode.getD (k + d) 0 := by
            intro d hd
            have hcd := hget (k + d)
            by_cases hmd : k + d < c.bytecode.length - 4 ∧
                fusionMatch c.validJumps c.bytecode (k + d)
            · exfalso
              have hshaped : fusionShape c.bytecode (k + d) := hmd.2.1
              have := hs k (by omega) (k + d) (by omega) hshape hshaped (by omega)
              omega
            · rw [if_neg hmd] at hcd
              exact hcd
          have ht : c1.bytecode.getD (k + 1) 0 * 256 + c1.bytecode.getD (k + 2) 0 =
              c.bytecode.getD (k + 1) 0 * 256 + c.bytecode.getD (k + 2) 0 := by
            rw [hun 1 (Or.inl rfl), hun 2 (Or.inr rfl)]
          rw [ht] at hv
          exact hmk ⟨hkr, ⟨hshape, hv⟩⟩
    rw [hc1, Option.some_bind,
      analyseContract_fix c1 (by omega) hnomatch]
  · have hnone : analyseContract c = none := by
      unfold analyseContract analyseBytes
      rw [if_pos (by omega)]
      rfl
    rw [hnone]
    rfl

/-- Witness for `C3_theorem` at the small spaced contract `c3w`. -/
theorem C3_witness :
    Spaced c3w.bytecode ∧
      (analyseContract c3w).bind analyseContract = analyseContract c3w :=
  ⟨by decide, C3_theorem c3w (by decide)⟩

/-! ### Equations for `run`, `runAfterAnalysis` and `runLoop` -/

/-- The dead n-gram block leaves the interpreter unchanged (`NGRAM = 0`). -/
theorem ngramUpdate_id (i : Interpreter) (op : Nat) : ngramUpdate i op = i := rfl

/-- `runEval` in terms of the dispatcher: fetch at the instruction pointer,
advance it by one, dispatch. -/
theorem runEval_eq {S : Type} (H : HostModel S) (i : Interpreter) (s : S) :
    runEval H i s =
      ((H.eval i.currentOpcode { i with ip := i.ip + 1 } s).1,
       (H.eval i.currentOpcode { i with ip := i.ip + 1 } s).2.1,
       i.currentOpcode,
       (H.eval i.currentOpcode { i with ip := i.ip + 1 } s).2.2) := rfl

/-- `run` after a successful analysis. -/
theorem run_analysed {S : Type} (useGas : Bool) (H : HostModel S) (fuel : Nat)
    (i : Interpreter) (s : S) {c1 : Contract}
    (hc1 : analyseContract i.contract = some c1) :
    run useGas H fuel i s = runAfterAnalysis useGas H fuel { i with contract := c1 } s := by
  unfold run
  rw [hc1]

/-- `run` panics exactly when `analyse` does. -/
theorem run_crash {S : Type} (useGas : Bool) (H : HostModel S) (fuel : Nat)
    (i : Interpreter) (s : S) (hc : analyseContract i.contract = none) :
    run useGas H fuel i s = Outcome.crash := by
  unfold run
  rw [hc]

/-- With gas accounting on and a first block that does not fit, the charge
fails and `run`'s tail returns `OutOfGas` at once, gas meter unchanged. -/
theorem runAfterAnalysis_oog {S : Type} (H : HostModel S) (fuel : Nat)
    (i0 : Interpreter) (s : S)
    (h : i0.gas.remaining < i0.contract.firstGasBlock) :
    runAfterAnalysis true H fuel i0 s = Outcome.done Ret.OutOfGas i0 s [] := by
  have hrc : i0.gas.recordCost i0.contract.firstGasBlock = (false, i0.gas) := by
    unfold Gas.recordCost
    rw [if_pos h]
  unfold runAfterAnalysis
  rw [if_pos rfl, hrc, if_pos rfl]

/-- With gas accounting on and a first block that fits, the charge deducts
exactly the block cost and the dispatch loop is entered. -/
theorem runAfterAnalysis_charged {S : Type} (H : HostModel S) (fuel : Nat)
    (i0 : Interpreter) (s : S)
    (h : i0.contract.firstGasBlock ≤ i0.gas.remaining) :
    runAfterAnalysis true H fuel i0 s =
      runLoop H fuel
        { i0 with gas := { remaining := i0.gas.remaining - i0.contract.firstGasBlock,
                           refunded := i0.gas.refunded } } s := by
  have hrc : i0.gas.recordCost i0.contract.firstGasBlock =
      (true, { remaining := i0.gas.remaining - i0.contract.firstGasBlock,
               refunded := i0.gas.refunded }) := by
    unfold Gas.recordCost
    rw [if_neg (by omega)]
  unfold runAfterAnalysis
  rw [if_pos rfl, hrc, if_neg (by simp)]

/-- With gas accounting off, the tail of `run` goes straight to the loop. -/
theorem runAfterAnalysis_nogas {S : Type} (H : HostModel S) (fuel : Nat)
    (i0 : Interpreter) (s : S) :
    runAfterAnalysis false H fuel i0 s = runLoop H fuel i0 s := rfl

/-! ### Claim C5: all-or-nothing gas charging -/

/-- C5: `record_cost` is all-or-nothing — on insufficient gas it returns
false with the meter (both counters) unchanged, otherwise it deducts
exactly the cost and returns true; correspondingly `add_next_gas_block`
returns `OutOfGas` with the interpreter unchanged exactly when the gas
block at `pc` exceeds `remaining`, and otherwise deducts it and returns
`Continue`. -/
theorem C5_theorem (g : Gas) (cost : Nat) (i : Interpreter) (pc : Nat) :
    (g.remaining < cost → g.recordCost cost = (false, g)) ∧
    (cost ≤ g.remaining →
      g.recordCost cost =
        (true, { remaining := g.remaining - cost, refunded := g.refunded })) ∧
    (i.gas.remaining < i.contract.gasBlock pc →
      i.addNextGasBlock true pc = (i, Ret.OutOfGas)) ∧
    (i.contract.gasBlock pc ≤ i.gas.remaining →
      i.addNextGasBlock true pc =
        ({ i with gas := { remaining := i.gas.remaining - i.contract.gasBlock pc,
                           refunded := i.gas.refunded } }, Ret.Continue)) := by
  refine ⟨?_, ?_, ?_, ?_⟩
  · intro h
    unfold Gas.recordCost
    rw [if_pos h]
  · intro h
    unfold Gas.recordCost
    rw [if_neg (by omega)]
  · intro h
    have hrc : i.gas.recordCost (i.contract.gasBlock pc) = (false, i.gas) := by
      unfold Gas.recordCost
      rw [if_pos h]
    unfold Interpreter.addNextGasBlock
    rw [if_pos rfl, hrc, if_pos rfl]
  · intro h
    have hrc : i.gas.recordCost (i.contract.gasBlock pc) =
        (true, { remaining := i.gas.remaining - i.contract.gasBlock pc,
                 refunded := i.gas.refunded }) := by
      unfold Gas.recordCost
      rw [if_neg (by omega)]
    unfold Interpreter.addNextGasBlock
    rw [if_pos rfl, hrc, if_neg (by simp)]

/-- Witness for `C5_theorem` at concrete meters: cost 7 against remaining
5 fails and leaves the meter alone; cost 3 against remaining 5 succeeds
and leaves 2. -/
theorem C5_witness :
    ((5 : Nat) < 7 ∧
      Gas.recordCost { remaining := 5, refunded := 0 } 7 =
        (false, { remaining := 5, refunded := 0 })) ∧
    ((3 : Nat) ≤ 5 ∧
      Gas.recordCost { remaining := 5, refunded := 0 } 3 =
        (true, { remaining := 2, refunded := 0 })) ∧
    (interpOf cExpensive 5).addNextGasBlock true 0 =
      (interpOf cExpensive 5, Ret.OutOfGas) := by
  refine ⟨⟨by omega, (C5_theorem { remaining := 5, refunded := 0 } 7
      (interpOf cExpensive 5) 0).1 (by decide)⟩,
    ⟨by omega, ?_⟩, ?_⟩
  · exact (C5_theorem { remaining := 5, refunded := 0 } 3
      (interpOf cExpensive 5) 0).2.1 (by decide)
  · exact (C5_theorem { remaining := 5, refunded := 0 } 3
      (interpOf cExpensive 5) 0).2.2.1 (by decide)

/-! ### Claim C8: gas accounting elided when `USE_GAS` is false -/

/-- C8: with gas accounting disabled, `add_next_gas_block` is the identity
returning `Continue` for every state and pc (both gas counters untouched),
and `run` performs no first-block charge: after `analyse` it enters the
dispatch loop with the gas meter exactly as it was. -/
theorem C8_theorem {S : Type} (H : HostModel S) (fuel : Nat) (i : Interpreter)
    (s : S) (pc : Nat) (h4 : 4 ≤ i.contract.bytecode.length) :
    i.addNextGasBlock false pc = (i, Ret.Continue) ∧
    ∃ c1, analyseContract i.contract = some c1 ∧
      ({ i with contract := c1 } : Interpreter).gas = i.gas ∧
      run false H fuel i s = runLoop H fuel { i with contract := c1 } s := by
  refine ⟨rfl, ?_⟩
  obtain ⟨c1, hc1, -, -, -, -, -⟩ := analyseContract_char i.contract h4
  exact ⟨c1, hc1, rfl, by rw [run_analysed false H fuel i s hc1, runAfterAnalysis_nogas]⟩

/-- Witness for `C8_theorem` at a concrete interpreter and host. -/
theorem C8_witness :
    (interpOf cExpensive 5).addNextGasBlock false 0 =
      (interpOf cExpensive 5, Ret.Continue) ∧
    ∃ c1, analyseContract (interpOf cExpensive 5).contract = some c1 ∧
      ({ interpOf cExpensive 5 with contract := c1 } : Interpreter).gas =
        (interpOf cExpensive 5).gas ∧
      run false hostStop 9 (interpOf cExpensive 5) () =
        runLoop hostStop 9 { interpOf cExpensive 5 with contract := c1 } () :=
  C8_theorem hostStop 9 (interpOf cExpensive 5) () 0 (by decide)

/-! ### Claim C4: the first-gas-block charge before the loop -/

/-- C4: `run` charges the first basic block's gas after `analyse` and
before the dispatch loop.  If the block exceeds the remaining gas, `run`
returns `OutOfGas` immediately with an empty event trace — no inspector
hook, no opcode fetch, no dispatch — and the gas meter untouched (visible
as the unchanged `gas` field).  Otherwise exactly the block cost is
deducted and the loop is entered. -/
theorem C4_theorem {S : Type} (H : HostModel S) (fuel : Nat) (i : Interpreter)
    (s : S) (h4 : 4 ≤ i.contract.bytecode.length) :
    ∃ c1, analyseContract i.contract = some c1 ∧
      c1.firstGasBlock = i.contract.firstGasBlock ∧
      (i.gas.remaining < i.contract.firstGasBlock →
        run true H fuel i s =
          Outcome.done Ret.OutOfGas { i with contract := c1 } s []) ∧
      (i.contract.firstGasBlock ≤ i.gas.remaining →
        run true H fuel i s = runLoop H fuel
          { i with
            contract := c1
            gas := { remaining := i.gas.remaining - i.contract.firstGasBlock,
                     refunded := i.gas.refunded } } s) := by
  obtain ⟨c1, hc1, hvj, hgb, hfgb, hlen, hget⟩ := analyseContract_char i.contract h4
  refine ⟨c1, hc1, hfgb, ?_, ?_⟩
  · intro h
    rw [run_analysed true H fuel i s hc1]
    exact runAfterAnalysis_oog H fuel _ s (by show i.gas.remaining < c1.firstGasBlock; omega)
  · intro h
    rw [run_analysed true H fuel i s hc1]
    rw [runAfterAnalysis_charged H fuel _ s (by show c1.firstGasBlock ≤ i.gas.remaining; omega)]
    show runLoop H fuel
        { i with
          contract := c1
          gas := { remaining := i.gas.remaining - c1.firstGasBlock,
                   refunded := i.gas.refunded } } s = _
    rw [hfgb]

/-- Witness for `C4_theorem`: a contract whose first gas block costs
1000000 against 5 remaining gas — `run` returns `OutOfGas` with an empty
trace. -/
theorem C4_witness :
    ∃ c1, analyseContract (interpOf cExpensive 5).contract = some c1 ∧
      c1.firstGasBlock = (interpOf cExpensive 5).contract.firstGasBlock ∧
      ((interpOf cExpensive 5).gas.remaining <
          (interpOf cExpensive 5).contract.firstGasBlock →
        run true hostStop 9 (interpOf cExpensive 5) () =
          Outcome.done Ret.OutOfGas
            { interpOf cExpensive 5 with contract := c1 } () []) ∧
      ((interpOf cExpensive 5).contract.firstGasBlock ≤
          (interpOf cExpensive 5).gas.remaining →
        run true hostStop 9 (interpOf cExpensive 5) () = runLoop hostStop 9
          { interpOf cExpensive 5 with
            contract := c1
            gas := { remaining := (interpOf cExpensive 5).gas.remaining -
                       (interpOf cExpensive 5).contract.firstGasBlock,
                     refunded := (interpOf cExpensive 5).gas.refunded } } ()) :=
  C4_theorem hostStop 9 (interpOf cExpensive 5) () (by decide)

/-! ### Claim C9: totality of `analyse` on locked bytecode -/

/-- C9: every locked contract's bytecode is STOP-padded to at least 33
bytes, so the loop bound `len - 4` of the fusion scan never underflows,
every index the scan reads (`i`, …, `i + 3` for `i < len - 4`) is in
bounds, and `analyse` always succeeds (and preserves the length). -/
theorem C9_theorem (raw : List Nat) (gb : Nat → Nat) (fgb : Nat) :
    4 ≤ (lockContract raw gb fgb).bytecode.length ∧
    (∃ c1, analyseContract (lockContract raw gb fgb) = some c1 ∧
      c1.bytecode.length = (lockContract raw gb fgb).bytecode.length) ∧
    ∀ i, i < (lockContract raw gb fgb).bytecode.length - 4 →
      i + 3 < (lockContract raw gb fgb).bytecode.length := by
  have hlen : (lockContract raw gb fgb).bytecode.length = raw.length + 33 := by
    rw [lockContract_bytecode]
    simp [List.length_append, List.length_replicate]
  refine ⟨by omega, ?_, by intro i hi; omega⟩
  obtain ⟨c1, hc1, -, -, -, h5, -⟩ :=
    analyseContract_char (lockContract raw gb fgb) (by rw [hlen]; omega)
  exact ⟨c1, hc1, h5⟩

/-! ### Claim C10: `program_counter` and `current_opcode` -/

/-- C10: for an interpreter whose instruction pointer lies inside its
contract's bytecode buffer, `program_counter()` is the pointer's offset
from the buffer start and `current_opcode()` is the bytecode byte at that
offset; both take `&self` and are embedded as pure functions — they do not
mutate the interpreter. -/
theorem C10_theorem (i : Interpreter) (h1 : i.base ≤ i.ip)
    (h2 : i.ip < i.base + i.contract.bytecode.length) :
    i.programCounter = i.ip - i.base ∧
    i.ip = i.base + i.programCounter ∧
    i.currentOpcode = i.contract.bytecode.getD i.programCounter 0 := by
  refine ⟨rfl, by unfold Interpreter.programCounter; omega, rfl⟩

/-- Witness for `C10_theorem` at a concrete interpreter (buffer based at
address 1000, pointer at 1002). -/
theorem C10_witness :
    ({ interpOf c2c 100 with ip := 1002 } : Interpreter).programCounter =
        ({ interpOf c2c 100 with ip := 1002 } : Interpreter).ip - 1000 ∧
    ({ interpOf c2c 100 with ip := 1002 } : Interpreter).ip =
        1000 + ({ interpOf c2c 100 with ip := 1002 } : Interpreter).programCounter ∧
    ({ interpOf c2c 100 with ip := 1002 } : Interpreter).currentOpcode =
      ({ interpOf c2c 100 with ip := 1002 } : Interpreter).contract.bytecode.getD
        ({ interpOf c2c 100 with ip := 1002 } : Interpreter).programCounter 0 :=
  C10_theorem { interpOf c2c 100 with ip := 1002 } (by decide) (by decide)

/-! ### Claim C6: the inspector `step` hook short-circuits the loop -/

/-- C6: with an inspector attached, each iteration of the dispatch loop
invokes the `step` hook first, and a non-`Continue` result is returned
exactly as the loop's value at once: the trace of the iteration is
`[Ev.step]` alone — no opcode is fetched or dispatched — and the final
interpreter is exactly the one the hook left (the instruction pointer is
not advanced). -/
theorem C6_theorem {S : Type} (H : HostModel S) (fuel : Nat) (i : Interpreter)
    (s s1 : S) (i1 : Interpreter) (r1 : Ret)
    (hI : H.inspect = true)
    (hstep : H.step s i H.isStaticCall = (s1, i1, r1))
    (hr : r1 ≠ Ret.Continue) :
    runLoop H (fuel + 1) i s = Outcome.done r1 i1 s1 [Ev.step] := by
  simp only [runLoop, hI, hstep, eq_self_iff_true, if_true]
  rw [if_neg hr]

/-- Witness for `C6_theorem`: an inspector whose `step` returns `Revert`
makes the loop return `Revert` with trace `[Ev.step]`. -/
theorem C6_witness :
    runLoop hostStepRevert 1 (interpOf c2c 100) () =
      Outcome.done Ret.Revert (interpOf c2c 100) () [Ev.step] :=
  C6_theorem hostStepRevert 0 (interpOf c2c 100) () () (interpOf c2c 100)
    Ret.Revert rfl rfl (by decide)

/-! ### Claim C7: the inspector `step_end` hook can override the result -/

/-- C7: with an inspector attached, after the handler returns `ret` the
loop invokes `step_end`; a non-`Continue` value `r2` from `step_end`
becomes the loop's result (overriding `ret`), while a `Continue` from
`step_end` leaves the handler's non-`Continue` `ret` as the value the
iteration returns. -/
theorem C7_theorem {S : Type} (H : HostModel S) (fuel : Nat) (i : Interpreter)
    (s s1 : S) (i1 i4 : Interpreter) (s2 : S) (op : Nat) (ret : Ret)
    (s3 : S) (i5 : Interpreter) (r2 : Ret)
    (hI : H.inspect = true)
    (hstep : H.step s i H.isStaticCall = (s1, i1, Ret.Continue))
    (hre : runEval H i1 s1 = (i4, s2, op, ret))
    (hend : H.stepEnd s2 i4 H.isStaticCall ret = (s3, i5, r2)) :
    (r2 ≠ Ret.Continue →
      runLoop H (fuel + 1) i s =
        Outcome.done r2 i5 s3 [Ev.step, Ev.fetch op, Ev.dispatch op, Ev.stepEnd]) ∧
    (r2 = Ret.Continue → ret ≠ Ret.Continue →
      runLoop H (fuel + 1) i s =
        Outcome.done ret i5 s3 [Ev.step, Ev.fetch op, Ev.dispatch op, Ev.stepEnd]) := by
  constructor
  · intro h2
    simp only [runLoop, hI, hstep, hre, hend, eq_self_iff_true, if_true]
    rw [if_neg h2]
  · intro h2 h3
    simp only [runLoop, hI, hstep, hre, hend, eq_self_iff_true, if_true]
    rw [if_pos h2, if_neg h3]

/-- Witness for `C7_theorem`, both directions: a `step_end` returning
`Revert` overrides the handler's `Stop`; a `step_end` returning `Continue`
leaves the handler's `Stop` in force. -/
theorem C7_witness :
    (runLoop hostEndRevert 1 (interpOf c2c 100) () =
      Outcome.done Ret.Revert
        { interpOf c2c 100 with ip := (interpOf c2c 100).ip + 1 } ()
        [Ev.step, Ev.fetch (interpOf c2c 100).currentOpcode,
         Ev.dispatch (interpOf c2c 100).currentOpcode, Ev.stepEnd]) ∧
    (runLoop hostInspectStop 1 (interpOf c2c 100) () =
      Outcome.done Ret.Stop
        { interpOf c2c 100 with ip := (interpOf c2c 100).ip + 1 } ()
        [Ev.step, Ev.fetch (interpOf c2c 100).currentOpcode,
         Ev.dispatch (interpOf c2c 100).currentOpcode, Ev.stepEnd]) :=
  ⟨(C7_theorem hostEndRevert 0 (interpOf c2c 100) () ()
      (interpOf c2c 100) { interpOf c2c 100 with ip := (interpOf c2c 100).ip + 1 }
      () (interpOf c2c 100).currentOpcode Ret.Stop ()
      { interpOf c2c 100 with ip := (interpOf c2c 100).ip + 1 } Ret.Revert
      rfl rfl rfl rfl).1 (by decide),
   (C7_theorem hostInspectStop 0 (interpOf c2c 100) () ()
      (interpOf c2c 100) { interpOf c2c 100 with ip := (interpOf c2c 100).ip + 1 }
      () (interpOf c2c 100).currentOpcode Ret.Stop ()
      { interpOf c2c 100 with ip := (interpOf c2c 100).ip + 1 } Ret.Continue
      rfl rfl rfl rfl).2 rfl (by decide)⟩

/-! ### Claim C1: termination and terminal returns -/

/-- A prefixed outcome is `done` exactly when the underlying one is. -/
theorem withEvents_done {S : Type} (evs : List Ev) (o : Outcome S) (r : Ret)
    (i : Interpreter) (s : S) (tr : List Ev)
    (h : o.withEvents evs = Outcome.done r i s tr) :
    ∃ tr0, o = Outcome.done r i s tr0 ∧ tr = evs ++ tr0 := by
  cases o with
  | crash => exact absurd h (by simp [Outcome.withEvents])
  | fuelOut => exact absurd h (by simp [Outcome.withEvents])
  | done r0 i0 s0 tr0 =>
    simp only [Outcome.withEvents] at h
    injection h with h1 h2 h3 h4
    subst h1
    subst h2
    subst h3
    exact ⟨tr0, rfl, h4.symm⟩

/-- The dispatch loop never hands `Continue` back to its caller: every
`done` outcome carries a terminal kind, on every path — the inspector
short-circuits, the loop-exit path, and the recursive path. -/
theorem runLoop_ne_continue {S : Type} (H : HostModel S) :
    ∀ (fuel : Nat) (i : Interpreter) (s : S) (r : Ret) (i2 : Interpreter)
      (s2 : S) (tr : List Ev),
      runLoop H fuel i s = Outcome.done r i2 s2 tr → r ≠ Ret.Continue := by
  intro fuel
  induction fuel with
  | zero =>
    intro i s r i2 s2 tr h
    simp only [runLoop] at h
    exact Outcome.noConfusion h
  | succ n ih =>
    intro i s r i2 s2 tr h
    simp only [runLoop] at h
    by_cases hI : H.inspect = true
    · rw [if_pos hI] at h
      rcases ht : H.step s i H.isStaticCall with ⟨s1, i1, r1⟩
      simp only [ht] at h
      rcases hre : runEval H i1 s1 with ⟨i4, s4, op, ret⟩
      simp only [hre] at h
      rcases hu : H.stepEnd s4 i4 H.isStaticCall ret with ⟨s5, i5, r5⟩
      simp only [hu] at h
      by_cases hr1 : r1 = Ret.Continue
      · rw [if_pos hr1] at h
        by_cases hr5 : r5 = Ret.Continue
        · rw [if_pos hr5] at h
          by_cases hret : ret = Ret.Continue
          · rw [if_pos hret] at h
            obtain ⟨tr0, h0, -⟩ := withEvents_done _ _ _ _ _ _ h
            exact ih i5 s5 r i2 s2 tr0 h0
          · rw [if_neg hret] at h
            injection h with e1 e2 e3 e4
            exact e1 ▸ hret
        · rw [if_neg hr5] at h
          injection h with e1 e2 e3 e4
          exact e1 ▸ hr5
      · rw [if_neg hr1] at h
        injection h with e1 e2 e3 e4
        exact e1 ▸ hr1
    · rw [if_neg hI] at h
      rcases hre : runEval H i s with ⟨i4, s4, op, ret⟩
      simp only [hre] at h
      by_cases hret : ret = Ret.Continue
      · rw [if_pos hret] at h
        obtain ⟨tr0, h0, -⟩ := withEvents_done _ _ _ _ _ _ h
        exact ih i4 s4 r i2 s2 tr0 h0
      · rw [if_neg hret] at h
        injection h with e1 e2 e3 e4
        exact e1 ▸ hret

/-- The tail of `run` never hands `Continue` back either. -/
theorem runAfterAnalysis_ne_continue {S : Type} (useGas : Bool)
    (H : HostModel S) (fuel : Nat) (i0 : Interpreter) (s : S) (r : Ret)
    (i2 : Interpreter) (s2 : S) (tr : List Ev)
    (h : runAfterAnalysis useGas H fuel i0 s = Outcome.done r i2 s2 tr) :
    r ≠ Ret.Continue := by
  unfold runAfterAnalysis at h
  by_cases hu : useGas = true
  · rw [if_pos hu] at h
    by_cases hc : (i0.gas.recordCost i0.contract.firstGasBlock).1 = false
    · rw [if_pos hc] at h
      injection h with e1 e2 e3 e4
      exact e1 ▸ (by decide : Ret.OutOfGas ≠ Ret.Continue)
    · rw [if_neg hc] at h
      exact runLoop_ne_continue H fuel _ _ _ _ _ _ h
  · rw [if_neg hu] at h
    exact runLoop_ne_continue H fuel _ _ _ _ _ _ h

/-- Any dispatcher step that returns `Continue` strictly decreases the
termination measure of the interpreter it produces, relative to the state
`i` the loop held before the iteration: the handler received the pointer
advanced to `i.ip + 1`, and either consumed gas or moved the pointer only
further forward, still inside the bytecode. -/
theorem measure_decreases (i i4 : Interpreter)
    (hlen : i4.contract.bytecode.length = i.contract.bytecode.length)
    (hbase : i4.base = i.base)
    (hprog : i4.gas.remaining < i.gas.remaining ∨
      (i4.gas.remaining = i.gas.remaining ∧ i.ip + 1 ≤ i4.ip ∧
        i4.ip - i.base < i.contract.bytecode.length))
    (hinv : i.base ≤ i.ip) :
    measureOf i4 < measureOf i := by
  unfold measureOf
  rw [hlen, hbase]
  rcases hprog with h | ⟨h1, h2, h3⟩
  · have e1 : (i4.gas.remaining + 1) * (i.contract.bytecode.length + 1) =
        i4.gas.remaining * (i.contract.bytecode.length + 1) +
          (i.contract.bytecode.length + 1) := by ring
    have e2 : (i4.gas.remaining + 1) * (i.contract.bytecode.length + 1) ≤
        i.gas.remaining * (i.contract.bytecode.length + 1) :=
      Nat.mul_le_mul_right _ h
    omega
  · rw [h1]
    generalize i.gas.remaining * (i.contract.bytecode.length + 1) = P
    omega

/-- Under the spec's dispatcher and inspector discipline, the dispatch
loop reaches a `done` outcome once the fuel exceeds the measure. -/
theorem runLoop_term {S : Type} (H : HostModel S) (hE : EvalProgress H)
    (hH : HookPassive H) :
    ∀ (N : Nat) (i : Interpreter) (s : S), measureOf i ≤ N → i.base ≤ i.ip →
      ∃ r i2 s2 tr, runLoop H (N + 1) i s = Outcome.done r i2 s2 tr := by
  intro N
  induction N using Nat.strong_induction_on with
  | _ N ih =>
    intro i s hμ hinv
    simp only [runLoop]
    by_cases hI : H.inspect = true
    · rw [if_pos hI]
      rcases ht : H.step s i H.isStaticCall with ⟨s1, i1, r1⟩
      have hi1 : i1 = i := by
        have hp := hH.1 s i H.isStaticCall
        rw [ht] at hp
        exact hp
      simp only [ht]
      by_cases hr1 : r1 = Ret.Continue
      · rw [if_pos hr1, hi1]
        rcases hre : runEval H i s1 with ⟨i4, s4, op, ret⟩
        have hEta := runEval_eq H i s1
        rw [hre] at hEta
        injection hEta with a1 hEta2
        injection hEta2 with a2 hEta3
        injection hEta3 with a3 a4
        simp only [hre]
        rcases hu : H.stepEnd s4 i4 H.isStaticCall ret with ⟨s5, i5, r5⟩
        have hi5 : i5 = i4 := by
          have hp := hH.2 s4 i4 H.isStaticCall ret
          rw [hu] at hp
          exact hp
        simp only [hu]
        rw [hi5]
        by_cases hr5 : r5 = Ret.Continue
        · rw [if_pos hr5]
          by_cases hret : ret = Ret.Continue
          · rw [if_pos hret]
            have hfacts := hE i.currentOpcode { i with ip := i.ip + 1 } s1
              (by rw [← a4]; exact hret)
            rw [← a1] at hfacts
            have hdec : measureOf i4 < measureOf i :=
              measure_decreases i i4 hfacts.1 hfacts.2.1 hfacts.2.2.2 hinv
            have hN1 : 1 ≤ N := by omega
            obtain ⟨r0, i0, s0, tr0, h0⟩ :=
              ih (N - 1) (by omega) i4 s5 (by omega) hfacts.2.2.1
            rw [show N - 1 + 1 = N by omega] at h0
            exact ⟨r0, i0, s0,
              [Ev.step, Ev.fetch op, Ev.dispatch op, Ev.stepEnd] ++ tr0,
              by rw [h0]; rfl⟩
          · rw [if_neg hret]
            exact ⟨ret, i4, s5, _, rfl⟩
        · rw [if_neg hr5]
          exact ⟨r5, i4, s5, _, rfl⟩
      · rw [if_neg hr1]
        exact ⟨r1, i1, s1, [Ev.step], rfl⟩
    · rw [if_neg hI]
      rcases hre : runEval H i s with ⟨i4, s4, op, ret⟩
      have hEta := runEval_eq H i s
      rw [hre] at hEta
      injection hEta with a1 hEta2
      injection hEta2 with a2 hEta3
      injection hEta3 with a3 a4
      simp only [hre]
      by_cases hret : ret = Ret.Continue
      · rw [if_pos hret]
        have hfacts := hE i.currentOpcode { i with ip := i.ip + 1 } s
          (by rw [← a4]; exact hret)
        rw [← a1] at hfacts
        have hdec : measureOf i4 < measureOf i :=
          measure_decreases i i4 hfacts.1 hfacts.2.1 hfacts.2.2.2 hinv
        have hN1 : 1 ≤ N := by omega
        obtain ⟨r0, i0, s0, tr0, h0⟩ :=
          ih (N - 1) (by omega) i4 s4 (by omega) hfacts.2.2.1
        rw [show N - 1 + 1 = N by omega] at h0
        exact ⟨r0, i0, s0, [Ev.fetch op, Ev.dispatch op] ++ tr0,
          by rw [h0]; rfl⟩
      · rw [if_neg hret]
        exact ⟨ret, i4, s4, _, rfl⟩

/-- C1: for every host and dispatcher obeying the spec's discipline
(`EvalProgress`: a `Continue`-returning handler either consumed gas or
moved the program counter only forward — covering plain handlers and the
gas-neutral immediate-skipping `PUSH1..PUSH32`/fused handlers alike —
keeping it inside the padded bytecode; `HookPassive`: inspector hooks
observe without rewriting execution state), `run` terminates — some fuel
makes it return a `done` outcome — and the returned kind is terminal:
`Continue` is never the value `run` hands its caller, on any path,
including the first-gas-block `OutOfGas` exit and the inspector
short-circuit returns. -/
theorem C1_theorem {S : Type} (useGas : Bool) (H : HostModel S)
    (hE : EvalProgress H) (hH : HookPassive H) (i : Interpreter) (s : S)
    (h4 : 4 ≤ i.contract.bytecode.length) (hinv : i.base ≤ i.ip) :
    (∃ fuel r i2 s2 tr, run useGas H fuel i s = Outcome.done r i2 s2 tr ∧
      r ≠ Ret.Continue) ∧
    ∀ fuel r i2 s2 tr, run useGas H fuel i s = Outcome.done r i2 s2 tr →
      r ≠ Ret.Continue := by
  obtain ⟨c1, hc1, hvj, hgb, hfgb, hlen, hget⟩ := analyseContract_char i.contract h4
  constructor
  · by_cases hu : useGas = true
    · subst hu
      by_cases hcharge : c1.firstGasBlock ≤ i.gas.remaining
      · obtain ⟨r, i2, s2, tr, h0⟩ := runLoop_term H hE hH
          (measureOf ({ i with
            contract := c1
            gas := { remaining := i.gas.remaining - c1.firstGasBlock,
                     refunded := i.gas.refunded } } : Interpreter))
          ({ i with
            contract := c1
            gas := { remaining := i.gas.remaining - c1.firstGasBlock,
                     refunded := i.gas.refunded } } : Interpreter) s le_rfl hinv
        exact ⟨measureOf ({ i with
            contract := c1
            gas := { remaining := i.gas.remaining - c1.firstGasBlock,
                     refunded := i.gas.refunded } } : Interpreter) + 1,
          r, i2, s2, tr,
          (run_analysed true H _ i s hc1).trans
            ((runAfterAnalysis_charged H _ _ s hcharge).trans h0),
          runLoop_ne_continue H _ _ _ _ _ _ _ h0⟩
      · refine ⟨1, Ret.OutOfGas, { i with contract := c1 }, s, [], ?_, by decide⟩
        rw [run_analysed true H 1 i s hc1]
        exact runAfterAnalysis_oog H 1 _ s (show i.gas.remaining < c1.firstGasBlock by omega)
    · rw [show useGas = false by simpa using hu]
      obtain ⟨r, i2, s2, tr, h0⟩ := runLoop_term H hE hH
        (measureOf { i with contract := c1 }) { i with contract := c1 } s le_rfl hinv
      exact ⟨measureOf { i with contract := c1 } + 1, r, i2, s2, tr,
        (run_analysed false H _ i s hc1).trans
          ((runAfterAnalysis_nogas H _ _ s).trans h0),
        runLoop_ne_continue H _ _ _ _ _ _ _ h0⟩
  · intro fuel r i2 s2 tr h
    rw [run_analysed useGas H fuel i s hc1] at h
    exact runAfterAnalysis_ne_continue useGas H fuel _ s r i2 s2 tr h

/-- Witness for `C1_theorem`: the `hostPush` dispatcher, whose `PUSH1`
handler genuinely returns `Continue` while skipping its immediate without
consuming gas, on the program `PUSH1 0x07; STOP` — so the discipline's
gas-neutral, pointer-advancing case is exercised non-vacuously: the first
conjunct shows `eval` returning `Continue` on the state `run` hands it
after fetching the `PUSH1`. -/
theorem C1_witness :
    (hostPush.eval PUSH1 { interpOf cPush 100 with ip := 1001 } () =
      ({ interpOf cPush 100 with ip := 1002 }, (), Ret.Continue)) ∧
    (∃ fuel r i2 s2 tr,
      run true hostPush fuel (interpOf cPush 100) () = Outcome.done r i2 s2 tr ∧
      r ≠ Ret.Continue) ∧
    ∀ fuel r i2 s2 tr,
      run true hostPush fuel (interpOf cPush 100) () = Outcome.done r i2 s2 tr →
      r ≠ Ret.Continue :=
  ⟨rfl,
    C1_theorem true hostPush
      (by
        intro op i s h
        simp only [hostPush] at h ⊢
        by_cases hg : op = PUSH1 ∧ i.base ≤ i.ip ∧
            i.ip + 1 - i.base < i.contract.bytecode.length
        · rw [if_pos hg] at h ⊢
          obtain ⟨-, hb, hl⟩ := hg
          refine ⟨rfl, rfl, ?_, Or.inr ⟨rfl, ?_, ?_⟩⟩ <;> dsimp only <;> omega
        · rw [if_neg hg] at h
          exact Ret.noConfusion h)
      ⟨fun s i b => rfl, fun s i b r => rfl⟩
      (interpOf cPush 100) () (by decide) (by decide)⟩

end Revm
